import Mathlib

/-!
# Breeze metadata-helper (`labs/breeze.metadata-helper.js`)

A shallow embedding of the helper functions that the file bolts onto
`breeze.MetadataHelper`, together with the properties they satisfy.

Conventions of the embedding:

* JavaScript objects that the code mutates in place are passed and returned
  by value: every function returns the objects as they are when the call
  ends, whether it ended by `return` or by `throw`.
* The validators arrays of a constructed type are kept by address: a data
  property holds the address of its array, and `inferValidators` pushes into
  the array at that address, so that two properties may hold one array.
* The Breeze library itself (`Validator`, `DataType`, the type constructors,
  the metadata store) is a collaborator: its functions are fields of the
  record `Breeze`, and a metadata store is seen as the list of calls made on it.
  Its functions return normally and are pure, but for `Validator.fromJSON`,
  whose failure the code catches.
* `Object.prototype.toString` follows the ES5 class names.
* `for (key in obj)` visits the own enumerable properties in insertion order;
  an object is the association list of those properties.
* An array is dense: it is the list of its elements.
-/

namespace MetadataHelper

/-! ## JavaScript values -/

/-- The JavaScript values a scalar field of a definition may hold; `obj` is a
plain object (not an array, not a string), of which only its being an object
matters to this code. -/
inductive JSVal where
  | undefined
  | null
  | bool (b : Bool)
  | num (n : Int)
  | nan
  | str (s : String)
  | obj
  deriving DecidableEq

/-- JavaScript `ToBoolean`. -/
def JSVal.truthy : JSVal → Bool
  | .undefined => false
  | .null => false
  | .bool b => b
  | .num n => n != 0
  | .nan => false
  | .str s => s != ""
  | .obj => true

/-- The test `v == null`: true of `null` and `undefined` only. -/
def JSVal.looseNull : JSVal → Bool
  | .undefined => true
  | .null => true
  | _ => false

/-- The expression `a || b`. -/
def JSVal.or (a b : JSVal) : JSVal :=
  if a.truthy then a else b

/-- JavaScript `ToString`, as applied by string concatenation. -/
def JSVal.toJSString : JSVal → String
  | .undefined => "undefined"
  | .null => "null"
  | .bool true => "true"
  | .bool false => "false"
  | .num n => toString n
  | .nan => "NaN"
  | .str s => s
  | .obj => "[object Object]"

/-- Whether `pat` occurs in the character list as a contiguous block. -/
def hasSubstr (pat : List Char) : List Char → Bool
  | [] => pat.isPrefixOf []
  | c :: cs => pat.isPrefixOf (c :: cs) || hasSubstr pat cs

/-- The test `s.indexOf(":#") === -1` negated: `s` contains `":#"`. -/
def isQualified (s : String) : Bool :=
  hasSubstr [':', '#'] s.toList

/-- What a `throw` carries: one of the two messages built by this file, or the
`TypeError` the JavaScript runtime raises on a call of a missing method or a
property read on `undefined`. -/
inductive Thrown where
  | message (text : String)
  | typeError
  deriving DecidableEq

/-! ## The string formatter -/

/-- The argument a placeholder digit selects. -/
def placeholderArg (args : List String) (d : Char) : Option String :=
  if d.isDigit then args.get? (d.toNat - '0'.toNat) else none

/-- The scanning loop of `format` over the characters of the template. -/
def formatChars (args : List String) : List Char → List Char
  | [] => []
  | [c] => [c]
  | [c, d] => [c, d]
  | c :: d :: e :: rest =>
    if c = '{' ∧ e = '}' then
      match placeholderArg args d with
      | some a => a.toList ++ formatChars args rest
      | none => c :: formatChars args (d :: e :: rest)
    else c :: formatChars args (d :: e :: rest)

/-- Modelled from the spec: `String.prototype.format`, the string-formatting
utility the messages are built with, which the source uses and does not define.
Every placeholder `{i}` of the template is replaced by the `i`-th argument. -/
def format (template : String) (args : List String) : String :=
  String.mk (formatChars args template.toList)

/-! ## Validators and their plain-data form -/

/-- A `breeze.Validator` instance: its name and its context entries. -/
structure Validator where
  name : String
  context : List (String × JSVal)
  deriving DecidableEq

/-- A validator written as plain data, as if it came from the server:
`{name: 'phone'}`, `{name: 'maxLength', maxLength: 24}`. -/
structure ValidatorJson where
  name : JSVal
  context : List (String × JSVal)
  deriving DecidableEq

/-- An element of a `validators` array: `inst` when `val instanceof Validator`,
`json` otherwise. -/
inductive ValidatorElem where
  | inst (v : Validator)
  | json (j : ValidatorJson)
  deriving DecidableEq

/-- The value of a `validators` field: a scalar (absent is `undefined`), an
object that has a length and indexed elements without being an array, or an
array. -/
inductive ValidatorsVal where
  | scalar (v : JSVal)
  | arrayLike (items : List ValidatorElem)
  | array (items : List ValidatorElem)
  deriving DecidableEq

/-- JavaScript `ToBoolean` of a `validators` field. -/
def ValidatorsVal.truthy : ValidatorsVal → Bool
  | .scalar v => v.truthy
  | .arrayLike _ => true
  | .array _ => true

/-- The result of `Object.prototype.toString.call(obj)`. -/
def objectToString : ValidatorsVal → String
  | .scalar .undefined => "[object Undefined]"
  | .scalar .null => "[object Null]"
  | .scalar (.bool _) => "[object Boolean]"
  | .scalar (.num _) => "[object Number]"
  | .scalar .nan => "[object Number]"
  | .scalar (.str _) => "[object String]"
  | .scalar .obj => "[object Object]"
  | .arrayLike _ => "[object Object]"
  | .array _ => "[object Array]"

/-- The function `_isArray`. -/
def _isArray (obj : ValidatorsVal) : Bool :=
  objectToString obj == "[object Array]"

/-! ## The Breeze library -/

/-- A member of the `breeze.DataType` enumeration: its name and, when it has
one, the validator its `validatorCtor` returns. -/
structure DataType where
  name : String
  validatorCtor : Option Validator
  deriving DecidableEq

/-! ## Type definitions and types -/

/-- A data property of a hand-written type definition. -/
structure DataPropDef where
  complexTypeName : JSVal
  isNullable : JSVal
  isPartOfKey : JSVal
  validators : ValidatorsVal
  dataType : Option DataType
  maxLength : JSVal
  deriving DecidableEq

/-- A navigation property of a hand-written type definition. -/
structure NavPropDef where
  entityTypeName : JSVal
  deriving DecidableEq

/-- The definition hash handed to `addTypeToStore`. The field `nameSpace` is
the property `namespace`; the two property bags list their own enumerable
properties in the order `for ... in` visits them. -/
structure TypeDef where
  shortName : JSVal
  nameSpace : JSVal
  isComplexType : JSVal
  dataProperties : List (String × DataPropDef)
  navigationProperties : List (String × NavPropDef)
  deriving DecidableEq

/-- The address of an array object. -/
abbrev ArrayRef := Nat

/-- The validators arrays, by address. -/
abbrev ArrayHeap := ArrayRef → List Validator

/-- A `breeze.DataProperty` of a constructed type. Its field `validators` is
the address of the array object the property holds: two properties with the
same address hold one and the same array. -/
structure DataProperty where
  name : String
  isNullable : JSVal
  dataType : Option DataType
  maxLength : JSVal
  validators : ArrayRef
  deriving DecidableEq

/-- A `breeze.EntityType` or `breeze.ComplexType`, with the validators arrays
its data properties hold. -/
structure StructuralType where
  shortName : JSVal
  nameSpace : JSVal
  isComplexType : JSVal
  dataProperties : List DataProperty
  arrays : ArrayHeap

/-- The expression `prop.validators` read as a list: the elements of the array
the property holds. -/
def StructuralType.validatorsOf (type : StructuralType) (prop : DataProperty) :
    List Validator :=
  type.arrays prop.validators

/-- The heap in which the array at `ref` has the elements `items`. -/
def setArray (arrays : ArrayHeap) (ref : ArrayRef) (items : List Validator) : ArrayHeap :=
  fun r => if r = ref then items else arrays r

/-- The library and runtime functions the helpers call. `fromJSON` is
`Validator.fromJSON`, `none` when it throws; `stringify` is `JSON.stringify`;
`required` is the result of `Validator.required()`; `maxLength v` the result of
`Validator.maxLength({maxLength: v})`; `dtString` is `DataType.String`;
`newComplexType` and `newEntityType` are the two constructors. -/
structure Breeze where
  fromJSON : ValidatorJson → Option Validator
  stringify : ValidatorJson → String
  required : Validator
  maxLength : JSVal → Validator
  dtString : DataType
  newComplexType : TypeDef → StructuralType
  newEntityType : TypeDef → StructuralType

/-- A call this file makes on a metadata store, with its arguments as they
are when the call is made. -/
inductive StoreCall where
  | addEntityType (type : StructuralType)
  | setEntityTypeForResourceName (resourceName : JSVal) (type : StructuralType)

/-- A metadata store, seen as the calls made on it so far. -/
abbrev Store := List StoreCall

/-- An object bound to `this`, seen through the one property read from it. -/
structure ThisObj where
  defaultNamespace : JSVal
  deriving DecidableEq

/-- The state `σ` as a call leaves it, and what the call threw, if it threw. -/
structure Outcome (σ : Type) where
  state : σ
  thrown : Option Thrown

/-! ## The helper functions -/

/-- The constructor: `new MetadataHelper(defaultNamespace)`. -/
def ctor (defaultNamespace : JSVal) : ThisObj :=
  { defaultNamespace := defaultNamespace }

/-- The method `setDefaultNamespace`. -/
def setDefaultNamespace (this : ThisObj) (nameSpace : JSVal) : ThisObj :=
  { this with defaultNamespace := nameSpace }

/-- The function `addTypeNameAsResource`. -/
def addTypeNameAsResource (store : Store) (type : StructuralType) : Store :=
  if !type.isComplexType.truthy then
    store ++ [StoreCall.setEntityTypeForResourceName type.shortName type]
  else store

/-- What `convertValidators` leaves behind: the property definition, what was
thrown, and the arguments of the calls of `Validator.fromJSON`, in order. -/
structure ConvertRun where
  propDef : DataPropDef
  thrown : Option Thrown
  fromJSONCalls : List ValidatorJson

/-- What the `forEach` of `convertValidators` leaves behind. -/
structure ForEachRun where
  items : List ValidatorElem
  thrown : Option Thrown
  fromJSONCalls : List ValidatorJson

/-- The `forEach` of `convertValidators`, over the elements from index `ix` on. -/
def convertEach (lib : Breeze) (typeName propName : String) :
    Nat → List ValidatorElem → ForEachRun
  | _, [] => ⟨[], none, []⟩
  | ix, .inst v :: rest =>
    let r := convertEach lib typeName propName (ix + 1) rest
    ⟨.inst v :: r.items, r.thrown, r.fromJSONCalls⟩
  | ix, .json val :: rest =>
    match lib.fromJSON val with
    | some v =>
      let r := convertEach lib typeName propName (ix + 1) rest
      ⟨.inst v :: r.items, r.thrown, val :: r.fromJSONCalls⟩
    | none =>
      ⟨.json val :: rest,
        some (.message (format
          "{0}.{1}.validators[{2}] = '{3}' can't be converted to a known Validator."
          [typeName, propName, toString ix, lib.stringify val])),
        [val]⟩

/-- The function `convertValidators`. -/
def convertValidators (lib : Breeze) (typeName propName : String)
    (propDef : DataPropDef) : ConvertRun :=
  let validators := propDef.validators
  if !_isArray validators then
    ⟨propDef, some (.message (format "{0}.{1}.validators must be an array"
      [typeName, propName])), []⟩
  else
    match validators with
    | .array items =>
      let r := convertEach lib typeName propName 0 items
      ⟨{ propDef with validators := .array r.items }, r.thrown, r.fromJSONCalls⟩
    | _ => ⟨propDef, some .typeError, []⟩

/-- The inner function `addValidator` of `inferValidators`; `none` is the
`null` that `getDataTypeValidator` may return. The `push` changes the array
object the property holds, in place. -/
def addValidator (arrays : ArrayHeap) (prop : DataProperty) (validator : Option Validator) :
    ArrayHeap :=
  match validator with
  | none => arrays
  | some v =>
    let valName := v.name
    let validators := arrays prop.validators
    let found := validators.filter (fun val => val.name == valName)
    if found.length = 0 then setArray arrays prop.validators (validators ++ [v])
    else arrays

/-- The inner function `getDataTypeValidator` of `inferValidators`. -/
def getDataTypeValidator (lib : Breeze) (prop : DataProperty) : Option Validator :=
  match prop.dataType with
  | none => none
  | some dataType =>
    if dataType = lib.dtString then none else dataType.validatorCtor

/-- The body of the `forEach` of `inferValidators`, for one data property. -/
def inferProp (lib : Breeze) (arrays : ArrayHeap) (prop : DataProperty) : ArrayHeap :=
  let arrays1 :=
    if !prop.isNullable.truthy then addValidator arrays prop (some lib.required) else arrays
  let arrays2 := addValidator arrays1 prop (getDataTypeValidator lib prop)
  if !prop.maxLength.looseNull && decide (prop.dataType = some lib.dtString) then
    addValidator arrays2 prop (some (lib.maxLength prop.maxLength))
  else arrays2

/-- The function `inferValidators`: the data properties are visited in order,
each visit working on the arrays as the visits before it left them. -/
def inferValidators (lib : Breeze) (entityType : StructuralType) : StructuralType :=
  { entityType with
    arrays := entityType.dataProperties.foldl (inferProp lib) entityType.arrays }

/-- The name with the namespace appended: `name += ':#' + namespace`. -/
def qualify (name : String) (nameSpace : JSVal) : String :=
  name ++ (":#" ++ nameSpace.toJSString)

/-- The patch of `complexTypeName`; `none` when `indexOf` is called on a value
that has no such method. -/
def patchComplexTypeName (nameSpace : JSVal) (complexTypeName : JSVal) : Option JSVal :=
  if complexTypeName.truthy then
    match complexTypeName with
    | .str s => if isQualified s then some (.str s) else some (.str (qualify s nameSpace))
    | _ => none
  else some complexTypeName

/-- The patch of `entityTypeName`; `none` when `indexOf` cannot be called. -/
def patchEntityTypeName (nameSpace : JSVal) (entityTypeName : JSVal) : Option JSVal :=
  match entityTypeName with
  | .str s => if isQualified s then some (.str s) else some (.str (qualify s nameSpace))
  | _ => none

/-- The patch of `isNullable`. -/
def patchIsNullable (prop : DataPropDef) : JSVal :=
  if prop.isNullable.looseNull then .bool (!prop.isPartOfKey.truthy)
  else .bool prop.isNullable.truthy

/-- The body of the first loop of `patchDefaults`, for one own data property. -/
def patchDataProp (lib : Breeze) (typeName : String) (nameSpace : JSVal)
    (key : String) (prop : DataPropDef) : Outcome DataPropDef :=
  match patchComplexTypeName nameSpace prop.complexTypeName with
  | none => ⟨prop, some .typeError⟩
  | some name =>
    let prop1 := { prop with complexTypeName := name }
    let prop2 := { prop1 with isNullable := patchIsNullable prop1 }
    if prop2.validators.truthy then
      let r := convertValidators lib typeName key prop2
      ⟨r.propDef, r.thrown⟩
    else ⟨prop2, none⟩

/-- The first loop of `patchDefaults`: a `throw` ends it and leaves the
remaining properties as they were. -/
def patchDataProps (lib : Breeze) (typeName : String) (nameSpace : JSVal) :
    List (String × DataPropDef) → Outcome (List (String × DataPropDef))
  | [] => ⟨[], none⟩
  | (key, prop) :: rest =>
    let r := patchDataProp lib typeName nameSpace key prop
    match r.thrown with
    | some e => ⟨(key, r.state) :: rest, some e⟩
    | none =>
      let rs := patchDataProps lib typeName nameSpace rest
      ⟨(key, r.state) :: rs.state, rs.thrown⟩

/-- The second loop of `patchDefaults`, over the own navigation properties. -/
def patchNavProps (nameSpace : JSVal) :
    List (String × NavPropDef) → Outcome (List (String × NavPropDef))
  | [] => ⟨[], none⟩
  | (key, prop) :: rest =>
    match patchEntityTypeName nameSpace prop.entityTypeName with
    | none => ⟨(key, prop) :: rest, some .typeError⟩
    | some name =>
      let rs := patchNavProps nameSpace rest
      ⟨(key, { prop with entityTypeName := name }) :: rs.state, rs.thrown⟩

/-- The function `patchDefaults`, called with `this` bound to `this`. -/
def patchDefaults (lib : Breeze) (this : ThisObj) (typeDef : TypeDef) : Outcome TypeDef :=
  let typeName := typeDef.shortName
  let nameSpace := typeDef.nameSpace.or this.defaultNamespace
  let typeDef1 := { typeDef with nameSpace := nameSpace }
  let dps := patchDataProps lib typeName.toJSString nameSpace typeDef1.dataProperties
  match dps.thrown with
  | some e => ⟨{ typeDef1 with dataProperties := dps.state }, some e⟩
  | none =>
    let navs := patchNavProps nameSpace typeDef1.navigationProperties
    ⟨{ typeDef1 with dataProperties := dps.state, navigationProperties := navs.state },
      navs.thrown⟩

/-- What `addTypeToStore` leaves behind: the definition, the store, and the
type it returned or what it threw. -/
structure AddRun where
  typeDef : TypeDef
  store : Store
  result : Except Thrown StructuralType

/-- The method `addTypeToStore`, invoked on the helper `_this`. Its body calls
`patchDefaults(typeDef)` as a plain function, so that inside `patchDefaults`
the name `this` is bound to the global object `globalObj` (the file is not in
strict mode) and not to the helper. -/
def addTypeToStore (lib : Breeze) (globalObj : ThisObj) (_this : ThisObj)
    (store : Store) (typeDef : TypeDef) : AddRun :=
  let patched := patchDefaults lib globalObj typeDef
  match patched.thrown with
  | some e => ⟨patched.state, store, .error e⟩
  | none =>
    let typeDef1 := patched.state
    let type :=
      if typeDef1.isComplexType.truthy then lib.newComplexType typeDef1
      else lib.newEntityType typeDef1
    let store1 := store ++ [StoreCall.addEntityType type]
    let type1 := inferValidators lib type
    let store2 := addTypeNameAsResource store1 type1
    ⟨typeDef1, store2, .ok type1⟩

/-! ## Stand-in library, sample definitions and the statements of the claims -/

/-- The element `forEach` leaves at the place of `e` when no conversion fails. -/
def convertedElem (lib : Breeze) : ValidatorElem → ValidatorElem
  | .inst v => .inst v
  | .json j =>
    match lib.fromJSON j with
    | some v => .inst v
    | none => .json j

/-- The validators the claim lets `inferValidators` consider for a data
property, in the order of the claim: `Validator.required()` when the property
is not nullable; the validator of the data type when there is a data type, it
is not `DataType.String` and it has a `validatorCtor`; `Validator.maxLength`
when `maxLength` is neither `null` nor `undefined` and the data type is
`DataType.String`. -/
def inferredCandidates (lib : Breeze) (p : DataProperty) : List Validator :=
  (if p.isNullable.truthy then [] else [lib.required])
  ++ (match p.dataType with
      | some dataType => if dataType = lib.dtString then [] else dataType.validatorCtor.toList
      | none => [])
  ++ (if p.maxLength ≠ .null ∧ p.maxLength ≠ .undefined ∧ p.dataType = some lib.dtString
      then [lib.maxLength p.maxLength] else [])

/-- The list `validators` followed by each candidate, taken in order, whose
name is not the name of a validator in the list at that moment. -/
def appendUnnamed (validators : List Validator) : List Validator → List Validator
  | [] => validators
  | c :: cs =>
    if c.name ∈ validators.map Validator.name then appendUnnamed validators cs
    else appendUnnamed (validators ++ [c]) cs

/-- The validators of a definition that are instances, in order. -/
def instancesOf : ValidatorsVal → List Validator
  | .array items =>
    items.filterMap (fun e => match e with
      | .inst v => some v
      | .json _ => none)
  | _ => []

/-- The data properties a stand-in constructor builds from a definition: the
property at position `i` holds the array at address `ref + i`. -/
def sampleProperties : ArrayRef → List (String × DataPropDef) → List DataProperty
  | _, [] => []
  | ref, kp :: rest =>
    { name := kp.1, isNullable := kp.2.isNullable, dataType := kp.2.dataType,
      maxLength := kp.2.maxLength, validators := ref } :: sampleProperties (ref + 1) rest

/-- The arrays a stand-in constructor builds from a definition: one array for
each property, with the validator instances of the definition. -/
def sampleArrays (props : List (String × DataPropDef)) : ArrayHeap :=
  fun ref =>
    match props[ref]? with
    | some kp => instancesOf kp.2.validators
    | none => []

/-- A stand-in for the library, on which the helpers can be evaluated:
`fromJSON` knows the validators `required`, `phone` and `maxLength`. -/
def sampleBreeze : Breeze where
  fromJSON j :=
    match j.name with
    | .str s => if s = "required" ∨ s = "phone" ∨ s = "maxLength" then some ⟨s, j.context⟩ else none
    | _ => none
  stringify j := "\x7b\"name\":" ++ j.name.toJSString ++ "\x7d"
  required := ⟨"required", []⟩
  maxLength v := ⟨"maxLength", [("maxLength", v)]⟩
  dtString := ⟨"String", some ⟨"string", []⟩⟩
  newComplexType d :=
    { shortName := d.shortName, nameSpace := d.nameSpace, isComplexType := .bool true,
      dataProperties := sampleProperties 0 d.dataProperties,
      arrays := sampleArrays d.dataProperties }
  newEntityType d :=
    { shortName := d.shortName, nameSpace := d.nameSpace, isComplexType := .undefined,
      dataProperties := sampleProperties 0 d.dataProperties,
      arrays := sampleArrays d.dataProperties }

/-- A data property definition with every field absent. -/
def emptyPropDef : DataPropDef :=
  { complexTypeName := .undefined, isNullable := .undefined, isPartOfKey := .undefined,
    validators := .scalar .undefined, dataType := none, maxLength := .undefined }

/-- A property definition whose validators are an instance and a known
validator in plain-data form. -/
def phoneDef : DataPropDef :=
  { emptyPropDef with
    validators := .array [.inst ⟨"phone", []⟩, .json ⟨.str "required", []⟩] }

/-- A property definition whose validators hold, at index 2, a validator that
`fromJSON` of the stand-in library does not know, and another one after it. -/
def bogusDef : DataPropDef :=
  { emptyPropDef with
    validators := .array [.inst ⟨"phone", []⟩, .json ⟨.str "required", []⟩,
      .json ⟨.str "bogus", []⟩, .json ⟨.num 7, []⟩] }

/-- The global object of a page that declares no `defaultNamespace`. -/
def plainGlobal : ThisObj := { defaultNamespace := .undefined }

/-- A definition that specifies no namespace. -/
def personDef : TypeDef :=
  { shortName := .str "Person", nameSpace := .undefined, isComplexType := .undefined,
    dataProperties :=
      [("id", { emptyPropDef with isPartOfKey := .bool true,
                                  dataType := some ⟨"Int32", some ⟨"int32", []⟩⟩ }),
       ("name", { emptyPropDef with dataType := some ⟨"String", some ⟨"string", []⟩⟩,
                                    maxLength := .num 30,
                                    validators := .array [.json ⟨.str "required", []⟩] })],
    navigationProperties := [] }

/-- A definition of a complex type. -/
def addressDef : TypeDef :=
  { shortName := .str "Address", nameSpace := .str "Northwind", isComplexType := .bool true,
    dataProperties :=
      [("city", { emptyPropDef with dataType := some ⟨"String", some ⟨"string", []⟩⟩ })],
    navigationProperties := [] }

/-- A definition whose first data property declares its validators as a
string, followed by a property of a complex type and a navigation property. -/
def orderDef : TypeDef :=
  { shortName := .str "Order", nameSpace := .str "Northwind", isComplexType := .undefined,
    dataProperties :=
      [("notes", { emptyPropDef with validators := .scalar (.str "required") }),
       ("shipTo", { emptyPropDef with complexTypeName := .str "Address" })],
    navigationProperties := [("customer", { entityTypeName := .str "Customer" })] }

/-- A definition that specifies no namespace and that `patchDefaults` patches
without throwing: a key, two properties of complex types, one of them with a
qualified name, and a navigation property. -/
def customerDef : TypeDef :=
  { shortName := .str "Customer", nameSpace := .null, isComplexType := .bool false,
    dataProperties :=
      [("id", { emptyPropDef with isPartOfKey := .bool true }),
       ("address", { emptyPropDef with complexTypeName := .str "Address" }),
       ("location", { emptyPropDef with complexTypeName := .str "Location:#Geo",
                                        isNullable := .num 0 })],
    navigationProperties := [("orders", { entityTypeName := .str "Order" })] }

/-- An entity type whose two data properties hold one validators array: `a`
is not nullable and of type `Int32`; `b` is nullable, of type `String` and has
a `maxLength`. -/
def sharedType : StructuralType :=
  { shortName := .str "Shared", nameSpace := .str "Northwind", isComplexType := .undefined,
    dataProperties :=
      [{ name := "a", isNullable := .bool false,
         dataType := some ⟨"Int32", some ⟨"int32", []⟩⟩, maxLength := .undefined,
         validators := 0 },
       { name := "b", isNullable := .bool true,
         dataType := some ⟨"String", some ⟨"string", []⟩⟩, maxLength := .num 5,
         validators := 0 }],
    arrays := fun _ => [] }

/-- The entity type `sharedType` with an array for each data property. -/
def separateType : StructuralType :=
  { sharedType with
    dataProperties :=
      [{ name := "a", isNullable := .bool false,
         dataType := some ⟨"Int32", some ⟨"int32", []⟩⟩, maxLength := .undefined,
         validators := 0 },
       { name := "b", isNullable := .bool true,
         dataType := some ⟨"String", some ⟨"string", []⟩⟩, maxLength := .num 5,
         validators := 1 }] }

/-- The name the claim promises for the original name `s` in the namespace
`ns`: `s` itself when it contains `":#"`, otherwise `s`, `":#"` and `ns`. -/
def qualifiedName (ns s : String) : String :=
  if [':', '#'] <:+: s.toList then s else s ++ ":#" ++ ns

/-- What the claim promises of the names of a definition `after`
`patchDefaults`, given the definition `before` it and the namespace `ns`:
position by position the keys are kept, a non-empty `complexTypeName` and a
string `entityTypeName` are qualified, and a data property without a
`complexTypeName` keeps what it had. -/
def NamesQualified (ns : String) (before after : TypeDef) : Prop :=
  List.Forall₂
    (fun b a => a.1 = b.1
      ∧ (∀ s, b.2.complexTypeName = JSVal.str s → s ≠ "" →
          a.2.complexTypeName = JSVal.str (qualifiedName ns s))
      ∧ (b.2.complexTypeName.truthy = false → a.2.complexTypeName = b.2.complexTypeName))
    before.dataProperties after.dataProperties
  ∧ List.Forall₂
    (fun b a => a.1 = b.1
      ∧ (∀ s, b.2.entityTypeName = JSVal.str s →
          a.2.entityTypeName = JSVal.str (qualifiedName ns s)))
    before.navigationProperties after.navigationProperties

/-- What the claim promises of `isNullable` of a definition `after`
`patchDefaults`, given the definition `before` it: position by position the
keys are kept and `isNullable` is a boolean, the negation of `isPartOfKey` when
it was `null` or `undefined` and its own boolean coercion otherwise. -/
def NullabilityPatched (before after : TypeDef) : Prop :=
  List.Forall₂
    (fun b a => a.1 = b.1
      ∧ a.2.isNullable = JSVal.bool
          (if b.2.isNullable = JSVal.null ∨ b.2.isNullable = JSVal.undefined
            then !b.2.isPartOfKey.truthy else b.2.isNullable.truthy))
    before.dataProperties after.dataProperties

/-! ## Theorems -/

theorem format_notArray (t p : String) :
    format "{0}.{1}.validators must be an array" [t, p]
      = t ++ "." ++ p ++ ".validators must be an array" := by
  apply String.ext
  show formatChars [t, p] "{0}.{1}.validators must be an array".toList = _
  have h : formatChars [t, p] "{0}.{1}.validators must be an array".toList
      = t.toList ++ '.' :: (p.toList ++ ".validators must be an array".toList) := rfl
  rw [h]
  simp [String.data_append]

theorem format_cannotConvert (t p i j : String) :
    format "{0}.{1}.validators[{2}] = '{3}' can't be converted to a known Validator."
        [t, p, i, j]
      = t ++ "." ++ p ++ ".validators[" ++ i ++ "] = '" ++ j
          ++ "' can't be converted to a known Validator." := by
  apply String.ext
  show formatChars [t, p, i, j]
    "{0}.{1}.validators[{2}] = '{3}' can't be converted to a known Validator.".toList = _
  have h : formatChars [t, p, i, j]
      "{0}.{1}.validators[{2}] = '{3}' can't be converted to a known Validator.".toList
      = t.toList ++ '.' :: (p.toList ++ (".validators[".toList ++ (i.toList
          ++ ("] = '".toList ++ (j.toList
          ++ "' can't be converted to a known Validator.".toList))))) := rfl
  rw [h]
  simp [String.data_append]

theorem messages_differ (t p i j : String) :
    t ++ "." ++ p ++ ".validators[" ++ i ++ "] = '" ++ j
          ++ "' can't be converted to a known Validator."
      ≠ t ++ "." ++ p ++ ".validators must be an array" := by
  intro h
  have h2 := congrArg String.data h
  simp [String.data_append] at h2

theorem isArray_iff (v : ValidatorsVal) : _isArray v = true ↔ ∃ items, v = .array items := by
  cases v with
  | scalar s => cases s <;> simp [_isArray, objectToString]
  | arrayLike xs => simp [_isArray, objectToString]
  | array xs => simp [_isArray, objectToString]

theorem convertEach_thrown_ne (lib : Breeze) (t p : String) (items : List ValidatorElem) :
    ∀ ix, (convertEach lib t p ix items).thrown
      ≠ some (.message (t ++ "." ++ p ++ ".validators must be an array")) := by
  induction items with
  | nil => intro ix; simp [convertEach]
  | cons e rest ih =>
    intro ix
    cases e with
    | inst v => simpa [convertEach] using ih (ix + 1)
    | json j =>
      cases hj : lib.fromJSON j with
      | some v => simpa [convertEach, hj] using ih (ix + 1)
      | none =>
        simp only [convertEach, hj, format_cannotConvert]
        intro h
        exact messages_differ t p (toString ix) (lib.stringify j) (by simpa using h)

/-- C5. `convertValidators` throws the message
`<typeName>.<propName>.validators must be an array` exactly when
`propDef.validators` is not an array; it then leaves `propDef` as it was and
makes no call of `Validator.fromJSON`. An absent field, `null`, a string and an
array-like object are not arrays. -/
theorem convertValidators_throws_iff_not_array (lib : Breeze) (typeName propName : String)
    (propDef : DataPropDef) :
    ((convertValidators lib typeName propName propDef).thrown
        = some (.message (typeName ++ "." ++ propName ++ ".validators must be an array"))
      ↔ ¬ ∃ items, propDef.validators = .array items)
    ∧ ((¬ ∃ items, propDef.validators = .array items) →
        (convertValidators lib typeName propName propDef).propDef = propDef
        ∧ (convertValidators lib typeName propName propDef).fromJSONCalls = [])
    ∧ (∀ v, v = ValidatorsVal.scalar .undefined ∨ v = .scalar .null
          ∨ (∃ s, v = .scalar (.str s)) ∨ (∃ xs, v = .arrayLike xs) →
        (convertValidators lib typeName propName { propDef with validators := v }).thrown
          = some (.message (typeName ++ "." ++ propName ++ ".validators must be an array")))
    := by
  refine ⟨?_, ?_, ?_⟩
  · constructor
    · intro h ⟨items, hi⟩
      simp only [convertValidators, hi, _isArray, objectToString] at h
      simp at h
      exact convertEach_thrown_ne lib typeName propName items 0 h
    · intro h
      have h2 : _isArray propDef.validators = false := by
        cases hb : _isArray propDef.validators with
        | false => rfl
        | true => exact absurd ((isArray_iff _).1 hb) h
      simp [convertValidators, h2, format_notArray]
  · intro h
    have h2 : _isArray propDef.validators = false := by
      cases hb : _isArray propDef.validators with
      | false => rfl
      | true => exact absurd ((isArray_iff _).1 hb) h
    simp [convertValidators, h2]
  · rintro v (h | h | ⟨s, h⟩ | ⟨xs, h⟩) <;>
      simp [h, convertValidators, _isArray, objectToString, format_notArray]

theorem convertEach_ok (lib : Breeze) (t p : String) (items : List ValidatorElem)
    (hok : ∀ j, ValidatorElem.json j ∈ items → (lib.fromJSON j).isSome = true) :
    ∀ ix, (convertEach lib t p ix items).thrown = none
      ∧ (convertEach lib t p ix items).items = items.map (convertedElem lib) := by
  induction items with
  | nil => intro ix; simp [convertEach]
  | cons e rest ih =>
    intro ix
    have ih2 := ih (fun j hj => hok j (List.mem_cons_of_mem _ hj)) (ix + 1)
    cases e with
    | inst v => simp [convertEach, convertedElem, ih2]
    | json j =>
      have hj := hok j (List.mem_cons_self _ _)
      cases hf : lib.fromJSON j with
      | none => simp [hf] at hj
      | some v => simp [convertEach, convertedElem, hf, ih2]

theorem convertEach_first_failure (lib : Breeze) (t p : String) (items : List ValidatorElem) :
    ∀ (ix i : Nat) j, items[i]? = some (ValidatorElem.json j) → lib.fromJSON j = none →
      (∀ (k : Nat) j', k < i → items[k]? = some (ValidatorElem.json j') →
        (lib.fromJSON j').isSome = true) →
      (convertEach lib t p ix items).thrown
        = some (.message (t ++ "." ++ p ++ ".validators[" ++ toString (ix + i) ++ "] = '"
            ++ lib.stringify j ++ "' can't be converted to a known Validator.")) := by
  induction items with
  | nil => intro ix i j h; simp at h
  | cons e rest ih =>
    intro ix i j hi hj hbefore
    cases i with
    | zero =>
      simp at hi
      subst hi
      simp [convertEach, hj, format_cannotConvert]
    | succ i =>
      simp at hi
      have ih2 := ih (ix + 1) i j hi hj (fun k j' hk hkj =>
        hbefore (k + 1) j' (by omega) (by simpa using hkj))
      have hidx : ix + 1 + i = ix + (i + 1) := by omega
      rw [hidx] at ih2
      cases e with
      | inst v => simpa [convertEach] using ih2
      | json j0 =>
        have h0 := hbefore 0 j0 (by omega) (by simp)
        cases hf : lib.fromJSON j0 with
        | none => simp [hf] at h0
        | some v => simpa [convertEach, hf] using ih2

/-- C6. When `propDef.validators` is an array: if `Validator.fromJSON`
succeeds on every element that is not a `Validator` instance, then
`convertValidators` returns normally, the array keeps its length, an element
that was an instance is the same instance at the same index, every other index
holds `Validator.fromJSON` of the original element, and so every element is an
instance; if `Validator.fromJSON` fails on the element at index `i` and on none
before it, `convertValidators` throws the message that names `typeName`,
`propName`, the index `i` and the JSON text of that element. -/
theorem convertValidators_array (lib : Breeze) (typeName propName : String)
    (propDef : DataPropDef) (items : List ValidatorElem)
    (harr : propDef.validators = .array items) :
    ((∀ j, ValidatorElem.json j ∈ items → (lib.fromJSON j).isSome = true) →
      (convertValidators lib typeName propName propDef).thrown = none
      ∧ ∃ out, (convertValidators lib typeName propName propDef).propDef
            = { propDef with validators := .array out }
        ∧ out.length = items.length
        ∧ (∀ (i : Nat) v, items[i]? = some (ValidatorElem.inst v) →
            out[i]? = some (ValidatorElem.inst v))
        ∧ (∀ (i : Nat) j, items[i]? = some (ValidatorElem.json j) →
            ∃ v, lib.fromJSON j = some v ∧ out[i]? = some (ValidatorElem.inst v))
        ∧ (∀ e, e ∈ out → ∃ v, e = ValidatorElem.inst v))
    ∧ (∀ (i : Nat) j, items[i]? = some (ValidatorElem.json j) → lib.fromJSON j = none →
        (∀ (k : Nat) j', k < i → items[k]? = some (ValidatorElem.json j') →
          (lib.fromJSON j').isSome = true) →
        (convertValidators lib typeName propName propDef).thrown
          = some (.message (typeName ++ "." ++ propName ++ ".validators[" ++ toString i
              ++ "] = '" ++ lib.stringify j
              ++ "' can't be converted to a known Validator."))) := by
  have hrun : convertValidators lib typeName propName propDef
      = ⟨{ propDef with validators := .array (convertEach lib typeName propName 0 items).items },
          (convertEach lib typeName propName 0 items).thrown,
          (convertEach lib typeName propName 0 items).fromJSONCalls⟩ := by
    simp [convertValidators, harr, _isArray, objectToString]
  constructor
  · intro hok
    obtain ⟨hthrown, hitems⟩ := convertEach_ok lib typeName propName items hok 0
    refine ⟨by rw [hrun]; exact hthrown, items.map (convertedElem lib), ?_, ?_, ?_, ?_, ?_⟩
    · rw [hrun, hitems]
    · simp
    · intro i v hi
      simp [List.getElem?_map, hi, convertedElem]
    · intro i j hi
      have hmem : ValidatorElem.json j ∈ items := List.getElem?_mem hi
      have hj := hok j hmem
      cases hf : lib.fromJSON j with
      | none => simp [hf] at hj
      | some v => exact ⟨v, rfl, by simp [List.getElem?_map, hi, convertedElem, hf]⟩
    · intro e he
      obtain ⟨e0, he0, rfl⟩ := List.mem_map.1 he
      cases e0 with
      | inst v => exact ⟨v, rfl⟩
      | json j =>
        have hj := hok j he0
        cases hf : lib.fromJSON j with
        | none => simp [hf] at hj
        | some v => exact ⟨v, by simp [convertedElem, hf]⟩
  · intro i j hi hj hbefore
    rw [hrun]
    have := convertEach_first_failure lib typeName propName items 0 i j hi hj hbefore
    simpa using this

/-- C6, evaluated with the stand-in library: an array whose plain-data
elements are all known is converted without a throw, and the unknown validator
at index 2 is named by the message. -/
theorem convertValidators_array_witness :
    (convertValidators sampleBreeze "Person" "phone" phoneDef).thrown = none
    ∧ (convertValidators sampleBreeze "Person" "phone" bogusDef).thrown
      = some (.message ("Person" ++ "." ++ "phone" ++ ".validators[" ++ toString 2
          ++ "] = '" ++ sampleBreeze.stringify ⟨.str "bogus", []⟩
          ++ "' can't be converted to a known Validator.")) :=
  ⟨((convertValidators_array sampleBreeze "Person" "phone" _ _ rfl).1 (by
      intro j hj
      simp at hj
      subst hj
      decide)).1,
    (convertValidators_array sampleBreeze "Person" "phone" _ _ rfl).2 2 ⟨.str "bogus", []⟩
      rfl rfl (by
        intro k j hk hj
        have hk2 : k = 0 ∨ k = 1 := by omega
        rcases hk2 with rfl | rfl
        · simp at hj
        · simp at hj
          subst hj
          decide)⟩

theorem appendUnnamed_append (vs as bs : List Validator) :
    appendUnnamed vs (as ++ bs) = appendUnnamed (appendUnnamed vs as) bs := by
  induction as generalizing vs with
  | nil => rfl
  | cons a as ih =>
    simp only [List.cons_append, appendUnnamed]
    split <;> exact ih _

theorem appendUnnamed_extends (vs cs : List Validator) : vs <+: appendUnnamed vs cs := by
  induction cs generalizing vs with
  | nil => exact List.prefix_refl _
  | cons c cs ih =>
    simp only [appendUnnamed]
    split
    · exact ih vs
    · exact (List.prefix_append vs [c]).trans (ih _)

theorem appendUnnamed_names (vs cs : List Validator) (c : Validator) (hc : c ∈ cs) :
    c.name ∈ (appendUnnamed vs cs).map Validator.name := by
  induction cs generalizing vs with
  | nil => simp at hc
  | cons d ds ih =>
    simp only [appendUnnamed]
    rcases List.mem_cons.1 hc with rfl | hmem
    · split
      · rename_i h
        obtain ⟨w, hw, hwn⟩ := List.mem_map.1 h
        exact List.mem_map.2 ⟨w, (appendUnnamed_extends vs ds).subset hw, hwn⟩
      · exact List.mem_map.2 ⟨c, (appendUnnamed_extends (vs ++ [c]) ds).subset (by simp), rfl⟩
    · split
      · exact ih vs hmem
      · exact ih _ hmem

theorem appendUnnamed_of_named (vs cs : List Validator)
    (h : ∀ c, c ∈ cs → c.name ∈ vs.map Validator.name) : appendUnnamed vs cs = vs := by
  induction cs with
  | nil => rfl
  | cons c cs ih =>
    simp only [appendUnnamed, h c (List.mem_cons_self _ _), if_true]
    exact ih (fun d hd => h d (List.mem_cons_of_mem _ hd))

theorem appendUnnamed_nodup (vs cs : List Validator)
    (h : (vs.map Validator.name).Nodup) : ((appendUnnamed vs cs).map Validator.name).Nodup := by
  induction cs generalizing vs with
  | nil => exact h
  | cons c cs ih =>
    simp only [appendUnnamed]
    split
    · exact ih vs h
    · rename_i hc
      apply ih
      rw [List.map_append, List.nodup_append]
      refine ⟨h, by simp, ?_⟩
      intro a ha hb
      simp at hb
      exact hc (hb ▸ ha)

theorem setArray_same (arrays : ArrayHeap) (ref : ArrayRef) (items : List Validator) :
    setArray arrays ref items ref = items := by
  simp [setArray]

theorem setArray_other (arrays : ArrayHeap) (ref r : ArrayRef) (items : List Validator)
    (h : r ≠ ref) : setArray arrays ref items r = arrays r := by
  simp [setArray, h]

theorem setArray_self (arrays : ArrayHeap) (ref : ArrayRef) :
    setArray arrays ref (arrays ref) = arrays := by
  funext r
  by_cases h : r = ref
  · simp [setArray, h]
  · simp [setArray, h]

theorem setArray_setArray (arrays : ArrayHeap) (ref : ArrayRef) (as bs : List Validator) :
    setArray (setArray arrays ref as) ref bs = setArray arrays ref bs := by
  funext r
  by_cases h : r = ref
  · simp [setArray, h]
  · simp [setArray, h]

theorem addValidator_eq (arrays : ArrayHeap) (p : DataProperty) (v : Option Validator) :
    addValidator arrays p v
      = setArray arrays p.validators (appendUnnamed (arrays p.validators) v.toList) := by
  cases v with
  | none => simp [addValidator, appendUnnamed, setArray_self]
  | some v =>
    simp only [addValidator, Option.toList, appendUnnamed]
    by_cases h : v.name ∈ (arrays p.validators).map Validator.name
    · have hne : (List.filter (fun val => val.name == v.name) (arrays p.validators)).length
          ≠ 0 := by
        obtain ⟨w, hw, hwn⟩ := List.mem_map.1 h
        have : w ∈ List.filter (fun val => val.name == v.name) (arrays p.validators) := by
          simp [List.mem_filter, hw, hwn]
        intro h0
        rw [List.length_eq_zero] at h0
        rw [h0] at this
        simp at this
      simp only [h, hne, if_true, if_false, setArray_self]
    · have heq : (List.filter (fun val => val.name == v.name) (arrays p.validators)).length
          = 0 := by
        rw [List.length_eq_zero, List.filter_eq_nil_iff]
        intro w hw hwn
        exact h (List.mem_map.2 ⟨w, hw, by simpa using hwn⟩)
      simp only [h, heq, if_true, if_false]

theorem inferProp_eq (lib : Breeze) (arrays : ArrayHeap) (p : DataProperty) :
    inferProp lib arrays p
      = setArray arrays p.validators
          (appendUnnamed (arrays p.validators) (inferredCandidates lib p)) := by
  obtain ⟨name, isNullable, dataType, maxLength, ref⟩ := p
  simp only [inferProp, inferredCandidates, getDataTypeValidator, addValidator_eq,
    appendUnnamed_append]
  cases hn : isNullable.truthy <;> cases dataType with
  | none =>
    cases maxLength <;>
      simp [JSVal.looseNull, appendUnnamed, setArray_same, setArray_setArray, setArray_self]
  | some dt =>
    by_cases hd : dt = lib.dtString
    · cases maxLength <;>
        simp [JSVal.looseNull, appendUnnamed, hd, setArray_same, setArray_setArray,
          setArray_self]
    · cases maxLength <;>
        simp [JSVal.looseNull, appendUnnamed, hd, setArray_same, setArray_setArray,
          setArray_self]

theorem inferProp_at (lib : Breeze) (arrays : ArrayHeap) (p : DataProperty) :
    inferProp lib arrays p p.validators
      = appendUnnamed (arrays p.validators) (inferredCandidates lib p) := by
  rw [inferProp_eq, setArray_same]

theorem inferProp_other (lib : Breeze) (arrays : ArrayHeap) (p : DataProperty) (r : ArrayRef)
    (h : r ≠ p.validators) : inferProp lib arrays p r = arrays r := by
  rw [inferProp_eq, setArray_other _ _ _ _ h]

theorem inferProp_extends (lib : Breeze) (arrays : ArrayHeap) (p : DataProperty)
    (r : ArrayRef) : arrays r <+: inferProp lib arrays p r := by
  by_cases h : r = p.validators
  · subst h
    rw [inferProp_at]
    exact appendUnnamed_extends _ _
  · rw [inferProp_other lib arrays p r h]

theorem inferAll_extends (lib : Breeze) (ps : List DataProperty) :
    ∀ (arrays : ArrayHeap) (r : ArrayRef),
      arrays r <+: ps.foldl (inferProp lib) arrays r := by
  induction ps with
  | nil => intro arrays r; exact List.prefix_refl _
  | cons p ps ih =>
    intro arrays r
    exact (inferProp_extends lib arrays p r).trans (ih _ r)

theorem inferAll_untouched (lib : Breeze) (ps : List DataProperty) :
    ∀ (arrays : ArrayHeap) (r : ArrayRef), r ∉ ps.map DataProperty.validators →
      ps.foldl (inferProp lib) arrays r = arrays r := by
  induction ps with
  | nil => intro arrays r _; rfl
  | cons p ps ih =>
    intro arrays r hr
    simp only [List.map_cons, List.mem_cons, not_or] at hr
    rw [List.foldl_cons, ih _ r hr.2, inferProp_other lib arrays p r hr.1]

theorem inferAll_sole_holder (lib : Breeze) (ps : List DataProperty) :
    ∀ (arrays : ArrayHeap) (p : DataProperty), p ∈ ps →
      (ps.map DataProperty.validators).count p.validators = 1 →
      ps.foldl (inferProp lib) arrays p.validators
        = appendUnnamed (arrays p.validators) (inferredCandidates lib p) := by
  induction ps with
  | nil => intro arrays p hp; simp at hp
  | cons q qs ih =>
    intro arrays p hp hcount
    rw [List.foldl_cons]
    rw [List.map_cons, List.count_cons] at hcount
    by_cases hq : q.validators = p.validators
    · have hzero : (qs.map DataProperty.validators).count p.validators = 0 := by
        simpa [hq] using hcount
      have hnot : p.validators ∉ qs.map DataProperty.validators :=
        List.count_eq_zero.1 hzero
      rcases List.mem_cons.1 hp with rfl | hmem
      · rw [inferAll_untouched lib qs _ _ hnot, inferProp_at]
      · exact absurd (List.mem_map_of_mem _ hmem) hnot
    · have hone : (qs.map DataProperty.validators).count p.validators = 1 := by
        simpa [hq] using hcount
      have hmem : p ∈ qs := by
        rcases List.mem_cons.1 hp with rfl | hmem
        · exact absurd rfl hq
        · exact hmem
      rw [ih _ p hmem hone, inferProp_other lib arrays q _ (fun h => hq h.symm)]

theorem inferAll_names (lib : Breeze) (ps : List DataProperty) :
    ∀ (arrays : ArrayHeap) (p : DataProperty), p ∈ ps →
      ∀ c, c ∈ inferredCandidates lib p →
        c.name ∈ (ps.foldl (inferProp lib) arrays p.validators).map Validator.name := by
  induction ps with
  | nil => intro arrays p hp; simp at hp
  | cons q qs ih =>
    intro arrays p hp c hc
    rw [List.foldl_cons]
    rcases List.mem_cons.1 hp with rfl | hmem
    · have h1 : c.name ∈ (inferProp lib arrays p p.validators).map Validator.name := by
        rw [inferProp_at]
        exact appendUnnamed_names _ _ c hc
      obtain ⟨w, hw, hwn⟩ := List.mem_map.1 h1
      exact List.mem_map.2 ⟨w, (inferAll_extends lib qs _ _).subset hw, hwn⟩
    · exact ih _ p hmem c hc

theorem inferAll_of_named (lib : Breeze) (ps : List DataProperty) :
    ∀ (arrays : ArrayHeap),
      (∀ p, p ∈ ps → ∀ c, c ∈ inferredCandidates lib p →
        c.name ∈ (arrays p.validators).map Validator.name) →
      ps.foldl (inferProp lib) arrays = arrays := by
  induction ps with
  | nil => intro arrays _; rfl
  | cons q qs ih =>
    intro arrays h
    have hq : inferProp lib arrays q = arrays := by
      rw [inferProp_eq, appendUnnamed_of_named _ _ (h q (List.mem_cons_self _ _)),
        setArray_self]
    rw [List.foldl_cons, hq]
    exact ih arrays (fun p hp => h p (List.mem_cons_of_mem _ hp))

theorem inferAll_nodup (lib : Breeze) (ps : List DataProperty) :
    ∀ (arrays : ArrayHeap) (r : ArrayRef), ((arrays r).map Validator.name).Nodup →
      ((ps.foldl (inferProp lib) arrays r).map Validator.name).Nodup := by
  induction ps with
  | nil => intro arrays r h; exact h
  | cons q qs ih =>
    intro arrays r h
    rw [List.foldl_cons]
    apply ih
    by_cases hr : r = q.validators
    · subst hr
      rw [inferProp_at]
      exact appendUnnamed_nodup _ _ h
    · rw [inferProp_other lib arrays q r hr]
      exact h

theorem inferValidators_header (lib : Breeze) (type : StructuralType) :
    (inferValidators lib type).isComplexType = type.isComplexType
    ∧ (inferValidators lib type).shortName = type.shortName
    ∧ (inferValidators lib type).nameSpace = type.nameSpace := ⟨rfl, rfl, rfl⟩

/-- C7, as amended. For every data property that is the only one to hold its
validators array, the validators after `inferValidators` are the original list
followed by, in order, each applicable candidate (`Validator.required()`, the
validator of the data type, `Validator.maxLength`) whose name is not the name
of a validator in the list at that moment. For every entity type, no validator
of an array is removed, replaced or reordered, and `inferValidators` returns
the entity type it was given, with the same data properties. -/
theorem inferValidators_appends_candidates (lib : Breeze) (entityType : StructuralType) :
    (∀ p, p ∈ entityType.dataProperties →
      (entityType.dataProperties.map DataProperty.validators).count p.validators = 1 →
      (inferValidators lib entityType).validatorsOf p
        = appendUnnamed (entityType.validatorsOf p) (inferredCandidates lib p))
    ∧ (∀ ref, entityType.arrays ref <+: (inferValidators lib entityType).arrays ref)
    ∧ (inferValidators lib entityType).dataProperties = entityType.dataProperties
    ∧ (inferValidators lib entityType).shortName = entityType.shortName
    ∧ (inferValidators lib entityType).nameSpace = entityType.nameSpace
    ∧ (inferValidators lib entityType).isComplexType = entityType.isComplexType := by
  refine ⟨?_, ?_, rfl, rfl, rfl, rfl⟩
  · intro p hp hcount
    exact inferAll_sole_holder lib entityType.dataProperties entityType.arrays p hp hcount
  · intro ref
    exact inferAll_extends lib entityType.dataProperties entityType.arrays ref

/-- C7, amended claim evaluated: on an entity type whose two data properties
hold two arrays, each array gets the candidates of its own property. -/
theorem inferValidators_appends_candidates_witness :
    (inferValidators sampleBreeze separateType).arrays 0
        = [⟨"required", []⟩, ⟨"int32", []⟩]
    ∧ (inferValidators sampleBreeze separateType).arrays 1
        = [⟨"maxLength", [("maxLength", .num 5)]⟩]
    ∧ (inferValidators sampleBreeze separateType).validatorsOf
          ⟨"b", .bool true, some sampleBreeze.dtString, .num 5, 1⟩
        = appendUnnamed
            (separateType.validatorsOf ⟨"b", .bool true, some sampleBreeze.dtString, .num 5, 1⟩)
            (inferredCandidates sampleBreeze
              ⟨"b", .bool true, some sampleBreeze.dtString, .num 5, 1⟩) :=
  ⟨by decide, by decide,
    (inferValidators_appends_candidates sampleBreeze separateType).1
      ⟨"b", .bool true, some sampleBreeze.dtString, .num 5, 1⟩ (by decide) (by decide)⟩

/-- C7, as stated, fails: the two data properties of `sharedType` hold one
array. The first, not nullable and of type `Int32`, has the candidates
`required` and `int32`; the second, nullable, of type `String` and with a
`maxLength`, has the candidate `maxLength`. After `inferValidators` the array
holds all three, which is the list the claim gives for neither property. -/
theorem inferValidators_shared_array :
    sharedType.dataProperties.map DataProperty.validators = [0, 0]
    ∧ sharedType.arrays 0 = []
    ∧ sharedType.dataProperties.map (inferredCandidates sampleBreeze)
        = [[⟨"required", []⟩, ⟨"int32", []⟩], [⟨"maxLength", [("maxLength", .num 5)]⟩]]
    ∧ (inferValidators sampleBreeze sharedType).arrays 0
        = [⟨"required", []⟩, ⟨"int32", []⟩, ⟨"maxLength", [("maxLength", .num 5)]⟩]
    ∧ ¬ (∀ p, p ∈ sharedType.dataProperties →
        (inferValidators sampleBreeze sharedType).validatorsOf p
          = appendUnnamed (sharedType.validatorsOf p)
              (inferredCandidates sampleBreeze p)) := by
  refine ⟨by decide, by decide, by decide, by decide, ?_⟩
  intro h
  have h2 := h ⟨"b", .bool true, some sampleBreeze.dtString, .num 5, 0⟩ (by decide)
  revert h2
  decide

/-- C9. `inferValidators` is idempotent: a second application leaves the
entity type, and so the validators of every data property, as the first left
them; and a data property whose validator names were pairwise distinct before
`inferValidators` has pairwise distinct validator names after it. -/
theorem inferValidators_idempotent (lib : Breeze) (entityType : StructuralType) :
    inferValidators lib (inferValidators lib entityType) = inferValidators lib entityType
    ∧ (∀ p, p ∈ entityType.dataProperties →
        ((entityType.validatorsOf p).map Validator.name).Nodup →
        (((inferValidators lib entityType).validatorsOf p).map Validator.name).Nodup) := by
  constructor
  · have h : entityType.dataProperties.foldl (inferProp lib)
          (entityType.dataProperties.foldl (inferProp lib) entityType.arrays)
        = entityType.dataProperties.foldl (inferProp lib) entityType.arrays :=
      inferAll_of_named lib _ _ (fun p hp c hc => inferAll_names lib _ _ p hp c hc)
    simp only [inferValidators, h]
  · intro p _ hp
    exact inferAll_nodup lib entityType.dataProperties entityType.arrays p.validators hp

theorem hasSubstr_iff (pat l : List Char) : hasSubstr pat l = true ↔ pat <:+: l := by
  induction l with
  | nil => simp [hasSubstr, List.isPrefixOf_iff_prefix]
  | cons c cs ih =>
    simp [hasSubstr, List.infix_cons_iff, ih, List.isPrefixOf_iff_prefix]

theorem patchName_str (ns s : String) :
    (if isQualified s then some (JSVal.str s) else some (JSVal.str (qualify s (.str ns))))
      = some (JSVal.str (qualifiedName ns s)) := by
  unfold qualifiedName qualify isQualified
  show (if hasSubstr [':', '#'] s.data = true then _ else _)
    = some (JSVal.str (if [':', '#'] <:+: s.data then _ else _))
  by_cases h : [':', '#'] <:+: s.data
  · simp [(hasSubstr_iff _ _).2 h, h]
  · have h2 : hasSubstr [':', '#'] s.data = false := by
      cases hb : hasSubstr [':', '#'] s.data with
      | false => rfl
      | true => exact absurd ((hasSubstr_iff _ _).1 hb) h
    simp [h2, h, JSVal.toJSString, String.append_assoc]

theorem convertValidators_fields (lib : Breeze) (t p : String) (propDef : DataPropDef) :
    ∃ vs, (convertValidators lib t p propDef).propDef = { propDef with validators := vs } := by
  unfold convertValidators
  simp only []
  split
  · exact ⟨propDef.validators, rfl⟩
  · split
    · exact ⟨_, rfl⟩
    · exact ⟨propDef.validators, rfl⟩

theorem patchDataProp_fields (lib : Breeze) (t : String) (ns : JSVal) (key : String)
    (prop : DataPropDef) (h : (patchDataProp lib t ns key prop).thrown = none) :
    ∃ name vs, patchComplexTypeName ns prop.complexTypeName = some name
      ∧ (patchDataProp lib t ns key prop).state
        = { prop with complexTypeName := name, isNullable := patchIsNullable prop,
                      validators := vs } := by
  unfold patchDataProp at h ⊢
  cases hn : patchComplexTypeName ns prop.complexTypeName with
  | none => simp [hn] at h
  | some name =>
    simp only [hn] at h ⊢
    split
    · obtain ⟨vs, hvs⟩ := convertValidators_fields lib t key
        { prop with complexTypeName := name,
                    isNullable := patchIsNullable { prop with complexTypeName := name } }
      exact ⟨name, vs, rfl, by rw [hvs]; rfl⟩
    · exact ⟨name, prop.validators, rfl, rfl⟩

theorem patchDataProps_fields (lib : Breeze) (t : String) (ns : JSVal)
    (props : List (String × DataPropDef))
    (h : (patchDataProps lib t ns props).thrown = none) :
    List.Forall₂
      (fun b a => a.1 = b.1 ∧ ∃ name vs,
        patchComplexTypeName ns b.2.complexTypeName = some name
        ∧ a.2 = { b.2 with complexTypeName := name, isNullable := patchIsNullable b.2,
                           validators := vs })
      props (patchDataProps lib t ns props).state := by
  induction props with
  | nil => simp [patchDataProps]
  | cons kp rest ih =>
    obtain ⟨key, prop⟩ := kp
    simp only [patchDataProps] at h ⊢
    cases hp : (patchDataProp lib t ns key prop).thrown with
    | some e => simp [hp] at h
    | none =>
      simp only [hp] at h ⊢
      exact List.Forall₂.cons ⟨rfl, patchDataProp_fields lib t ns key prop hp⟩ (ih h)

theorem patchNavProps_fields (ns : JSVal) (props : List (String × NavPropDef))
    (h : (patchNavProps ns props).thrown = none) :
    List.Forall₂
      (fun b a => a.1 = b.1
        ∧ patchEntityTypeName ns b.2.entityTypeName = some a.2.entityTypeName)
      props (patchNavProps ns props).state := by
  induction props with
  | nil => simp [patchNavProps]
  | cons kp rest ih =>
    obtain ⟨key, prop⟩ := kp
    simp only [patchNavProps] at h ⊢
    cases hp : patchEntityTypeName ns prop.entityTypeName with
    | none => simp [hp] at h
    | some name =>
      simp only [hp] at h ⊢
      exact List.Forall₂.cons ⟨rfl, hp⟩ (ih h)

theorem patchDefaults_returns (lib : Breeze) (this : ThisObj) (typeDef : TypeDef)
    (h : (patchDefaults lib this typeDef).thrown = none) :
    (patchDataProps lib typeDef.shortName.toJSString
        (typeDef.nameSpace.or this.defaultNamespace) typeDef.dataProperties).thrown = none
    ∧ (patchNavProps (typeDef.nameSpace.or this.defaultNamespace)
        typeDef.navigationProperties).thrown = none
    ∧ (patchDefaults lib this typeDef).state.dataProperties
      = (patchDataProps lib typeDef.shortName.toJSString
          (typeDef.nameSpace.or this.defaultNamespace) typeDef.dataProperties).state
    ∧ (patchDefaults lib this typeDef).state.navigationProperties
      = (patchNavProps (typeDef.nameSpace.or this.defaultNamespace)
          typeDef.navigationProperties).state := by
  unfold patchDefaults at h ⊢
  simp only [] at h ⊢
  cases hd : (patchDataProps lib typeDef.shortName.toJSString
        (typeDef.nameSpace.or this.defaultNamespace) typeDef.dataProperties).thrown with
  | some e => simp [hd] at h
  | none =>
    simpa [hd] using h

theorem patchDefaults_header (lib : Breeze) (this : ThisObj) (typeDef : TypeDef) :
    (patchDefaults lib this typeDef).state.nameSpace
        = typeDef.nameSpace.or this.defaultNamespace
    ∧ (patchDefaults lib this typeDef).state.isComplexType = typeDef.isComplexType
    ∧ (patchDefaults lib this typeDef).state.shortName = typeDef.shortName := by
  unfold patchDefaults
  simp only []
  split <;> exact ⟨rfl, rfl, rfl⟩

/-- C2. After `helper.patchDefaults(typeDef)` the namespace of the definition
is the original one when it was truthy, and the helper's `defaultNamespace`
when it was absent, `null` or the empty string, whether or not the call throws
later on; the `defaultNamespace` of a helper is the value its constructor or
`setDefaultNamespace` was last given. -/
theorem patchDefaults_namespace (lib : Breeze) (helper : ThisObj) (typeDef : TypeDef)
    (d : JSVal) :
    (typeDef.nameSpace.truthy = true →
      (patchDefaults lib helper typeDef).state.nameSpace = typeDef.nameSpace)
    ∧ (typeDef.nameSpace = .undefined ∨ typeDef.nameSpace = .null
        ∨ typeDef.nameSpace = .str "" →
      (patchDefaults lib helper typeDef).state.nameSpace = helper.defaultNamespace)
    ∧ (ctor d).defaultNamespace = d
    ∧ (setDefaultNamespace helper d).defaultNamespace = d := by
  refine ⟨?_, ?_, rfl, rfl⟩
  · intro h
    rw [(patchDefaults_header lib helper typeDef).1]
    simp [JSVal.or, h]
  · intro h
    rw [(patchDefaults_header lib helper typeDef).1]
    rcases h with h | h | h <;> simp [JSVal.or, h, JSVal.truthy]

/-- C2, evaluated: a definition without namespace takes the default of the
helper it is patched by, a definition with a namespace keeps it. -/
theorem patchDefaults_namespace_witness :
    (patchDefaults sampleBreeze (ctor (.str "Northwind")) personDef).state.nameSpace
        = .str "Northwind"
    ∧ (patchDefaults sampleBreeze (setDefaultNamespace (ctor .undefined) (.str "Other"))
        orderDef).state.nameSpace = .str "Northwind" :=
  ⟨(patchDefaults_namespace sampleBreeze (ctor (.str "Northwind")) personDef .null).2.1
      (Or.inl rfl),
    (patchDefaults_namespace sampleBreeze (setDefaultNamespace (ctor .undefined) (.str "Other"))
      orderDef .null).1 (by decide)⟩

/-- C3, as amended. When the resolved namespace is the string `ns` and
`patchDefaults` returns without throwing, every own data property with a
non-empty `complexTypeName` and every own navigation property with a string
`entityTypeName` holds the qualified name, and a data property without a
`complexTypeName` keeps what it had. -/
theorem patchDefaults_qualifies_names (lib : Breeze) (this : ThisObj) (typeDef : TypeDef)
    (ns : String) (hns : typeDef.nameSpace.or this.defaultNamespace = .str ns)
    (hret : (patchDefaults lib this typeDef).thrown = none) :
    NamesQualified ns typeDef (patchDefaults lib this typeDef).state := by
  obtain ⟨hd, hn, hds, hnv⟩ := patchDefaults_returns lib this typeDef hret
  unfold NamesQualified
  rw [hds, hnv]
  constructor
  · refine (patchDataProps_fields lib _ _ _ hd).imp ?_
    rintro ⟨kb, b⟩ ⟨ka, a⟩ ⟨hkey, name, vs, hname, ha⟩
    simp only at hkey hname ha ⊢
    subst ha
    refine ⟨hkey, ?_, ?_⟩
    · intro s hs hne
      have : patchComplexTypeName (.str ns) (.str s) = some (.str (qualifiedName ns s)) := by
        simp only [patchComplexTypeName, JSVal.truthy]
        simp only [bne_iff_ne, ne_eq, hne, not_false_eq_true, if_true]
        exact patchName_str ns s
      rw [hns, hs, this] at hname
      simpa using hname.symm
    · intro hf
      simp only [patchComplexTypeName, hf] at hname
      simpa using hname.symm
  · refine (patchNavProps_fields _ _ hn).imp ?_
    rintro ⟨kb, b⟩ ⟨ka, a⟩ ⟨hkey, hname⟩
    simp only at hkey hname ⊢
    refine ⟨hkey, ?_⟩
    intro s hs
    rw [hns, hs] at hname
    simp only [patchEntityTypeName, patchName_str] at hname
    simpa using hname.symm

/-- C3, amended claim evaluated: on a definition that `patchDefaults` patches
without throwing, the unqualified names get the namespace and the qualified
name is kept. -/
theorem patchDefaults_qualifies_names_witness :
    NamesQualified "Northwind" customerDef
        (patchDefaults sampleBreeze (ctor (.str "Northwind")) customerDef).state
    ∧ (patchDefaults sampleBreeze (ctor (.str "Northwind")) customerDef).state.dataProperties.map
          (fun kp => kp.2.complexTypeName)
        = [.undefined, .str "Address:#Northwind", .str "Location:#Geo"]
    ∧ (patchDefaults sampleBreeze (ctor (.str "Northwind")) customerDef
          ).state.navigationProperties.map (fun kp => kp.2.entityTypeName)
        = [.str "Order:#Northwind"] :=
  ⟨patchDefaults_qualifies_names sampleBreeze (ctor (.str "Northwind")) customerDef "Northwind"
    (by decide) (by decide), by decide, by decide⟩

/-- C3, as stated, fails: the resolved namespace of `orderDef` is the string
`Northwind`, `patchDefaults` throws at its first data property, whose
validators are not an array, and the names of the properties after it are left
unqualified. -/
theorem patchDefaults_names_unqualified_after_throw :
    orderDef.nameSpace.or (ctor (.str "Northwind")).defaultNamespace = .str "Northwind"
    ∧ (patchDefaults sampleBreeze (ctor (.str "Northwind")) orderDef).thrown
        = some (.message "Order.notes.validators must be an array")
    ∧ (patchDefaults sampleBreeze (ctor (.str "Northwind")) orderDef).state.dataProperties.map
          (fun kp => kp.2.complexTypeName)
        = [.undefined, .str "Address"]
    ∧ (patchDefaults sampleBreeze (ctor (.str "Northwind")) orderDef
          ).state.navigationProperties.map (fun kp => kp.2.entityTypeName)
        = [.str "Customer"]
    ∧ ¬ NamesQualified "Northwind" orderDef
        (patchDefaults sampleBreeze (ctor (.str "Northwind")) orderDef).state := by
  refine ⟨by decide, by decide, by decide, by decide, ?_⟩
  have hstate : (patchDefaults sampleBreeze (ctor (.str "Northwind")) orderDef).state
      = { orderDef with dataProperties :=
            [("notes", { emptyPropDef with validators := .scalar (.str "required"),
                                           isNullable := .bool true }),
             ("shipTo", { emptyPropDef with complexTypeName := .str "Address" })] } := by
    decide
  rw [hstate]
  intro h
  have h2 := h.2
  simp only [orderDef, List.forall₂_cons] at h2
  have h3 := h2.1.2 "Customer" rfl
  revert h3
  decide

/-- C4, as amended. When `patchDefaults` returns without throwing, every own
data property has a boolean `isNullable`: the negation of `isPartOfKey` when
`isNullable` was `null` or `undefined`, the boolean coercion of the declared
value otherwise. -/
theorem patchDefaults_isNullable (lib : Breeze) (this : ThisObj) (typeDef : TypeDef)
    (hret : (patchDefaults lib this typeDef).thrown = none) :
    NullabilityPatched typeDef (patchDefaults lib this typeDef).state := by
  obtain ⟨hd, _, hds, _⟩ := patchDefaults_returns lib this typeDef hret
  unfold NullabilityPatched
  rw [hds]
  refine (patchDataProps_fields lib _ _ _ hd).imp ?_
  rintro ⟨kb, b⟩ ⟨ka, a⟩ ⟨hkey, name, vs, _, ha⟩
  simp only at hkey ha ⊢
  subst ha
  refine ⟨hkey, ?_⟩
  simp only [patchIsNullable]
  cases hb : b.isNullable <;> simp [JSVal.looseNull]

/-- C4, amended claim evaluated: on a definition that `patchDefaults` patches
without throwing, the key is not nullable, the property that declares nothing
is nullable, and the declared `0` is coerced to `false`. -/
theorem patchDefaults_isNullable_witness :
    NullabilityPatched customerDef
        (patchDefaults sampleBreeze (ctor (.str "Northwind")) customerDef).state
    ∧ (patchDefaults sampleBreeze (ctor (.str "Northwind")) customerDef).state.dataProperties.map
          (fun kp => kp.2.isNullable)
        = [.bool false, .bool true, .bool false] :=
  ⟨patchDefaults_isNullable sampleBreeze (ctor (.str "Northwind")) customerDef (by decide),
    by decide⟩

/-- C4, as stated, fails: `patchDefaults` throws at the first data property of
`orderDef`, and the property after it is left with `isNullable` undefined,
which is not a boolean. -/
theorem patchDefaults_isNullable_missing_after_throw :
    (patchDefaults sampleBreeze (ctor (.str "Northwind")) orderDef).thrown
        = some (.message "Order.notes.validators must be an array")
    ∧ (∃ p, (patchDefaults sampleBreeze (ctor (.str "Northwind")) orderDef).state.dataProperties[1]?
              = some ("shipTo", p) ∧ p.isNullable = .undefined)
    ∧ ¬ NullabilityPatched orderDef
        (patchDefaults sampleBreeze (ctor (.str "Northwind")) orderDef).state := by
  have hstate : (patchDefaults sampleBreeze (ctor (.str "Northwind")) orderDef).state
      = { orderDef with dataProperties :=
            [("notes", { emptyPropDef with validators := .scalar (.str "required"),
                                           isNullable := .bool true }),
             ("shipTo", { emptyPropDef with complexTypeName := .str "Address" })] } := by
    decide
  refine ⟨by decide, ⟨_, by rw [hstate]; rfl, rfl⟩, ?_⟩
  rw [hstate]
  intro h
  simp only [NullabilityPatched, orderDef, List.forall₂_cons] at h
  have h3 := h.2.1.2
  revert h3
  decide

/-- The namespace `addTypeToStore` leaves in the definition does not depend on
the helper the method is invoked on: the default is read from the global
object. -/
theorem addTypeToStore_namespace (lib : Breeze) (globalObj helper : ThisObj) (store : Store)
    (typeDef : TypeDef) :
    (addTypeToStore lib globalObj helper store typeDef).typeDef.nameSpace
      = typeDef.nameSpace.or globalObj.defaultNamespace := by
  unfold addTypeToStore
  simp only []
  split <;> exact (patchDefaults_header lib globalObj typeDef).1

/-- C1, evaluated at the failing input: invoked on a helper whose default
namespace is `Northwind`, on a page whose global object has no
`defaultNamespace`, `addTypeToStore` leaves the namespace of a definition that
specifies none `undefined`, and the type handed to `store.addEntityType` is
built from a definition whose namespace is `undefined`; `patchDefaults` invoked
as a method of the same helper sets `Northwind`. -/
theorem addTypeToStore_loses_defaultNamespace :
    (ctor (.str "Northwind")).defaultNamespace = .str "Northwind"
    ∧ personDef.nameSpace = .undefined
    ∧ (addTypeToStore sampleBreeze plainGlobal (ctor (.str "Northwind")) [] personDef
        ).typeDef.nameSpace = .undefined
    ∧ (addTypeToStore sampleBreeze plainGlobal (ctor (.str "Northwind")) [] personDef
        ).store.head?
        = some (.addEntityType (sampleBreeze.newEntityType
            (patchDefaults sampleBreeze plainGlobal personDef).state))
    ∧ (patchDefaults sampleBreeze plainGlobal personDef).state.nameSpace = .undefined
    ∧ (patchDefaults sampleBreeze (ctor (.str "Northwind")) personDef).state.nameSpace
        = .str "Northwind" := by
  refine ⟨by decide, by decide, by decide, ?_, by decide, by decide⟩
  rfl

/-- C8. `addTypeNameAsResource` makes exactly the call
`store.setEntityTypeForResourceName(type.shortName, type)` when
`type.isComplexType` is falsy and leaves the store alone when it is truthy.
Consequently, with a library whose complex types have a truthy `isComplexType`
and whose entity types a falsy one, `addTypeToStore` never registers a
resource name for a complex type definition, and for an entity type
definition the calls it makes before returning the type are `addEntityType`
and then the registration of the short name of the returned type; it returns
a type whenever `patchDefaults` does not throw. -/
theorem addTypeNameAsResource_registers (lib : Breeze) (globalObj helper : ThisObj)
    (store : Store) (type : StructuralType) (typeDef : TypeDef) :
    (type.isComplexType.truthy = false →
      addTypeNameAsResource store type
        = store ++ [StoreCall.setEntityTypeForResourceName type.shortName type])
    ∧ (type.isComplexType.truthy = true → addTypeNameAsResource store type = store)
    ∧ ((∀ d, (lib.newComplexType d).isComplexType.truthy = true) →
        typeDef.isComplexType.truthy = true →
        ∀ name t, StoreCall.setEntityTypeForResourceName name t
            ∈ (addTypeToStore lib globalObj helper store typeDef).store →
          StoreCall.setEntityTypeForResourceName name t ∈ store)
    ∧ ((∀ d, (lib.newEntityType d).isComplexType.truthy = false) →
        typeDef.isComplexType.truthy = false →
        ∀ t, (addTypeToStore lib globalObj helper store typeDef).result = .ok t →
          (addTypeToStore lib globalObj helper store typeDef).store
            = store ++ [StoreCall.addEntityType (lib.newEntityType
                  (addTypeToStore lib globalObj helper store typeDef).typeDef),
                StoreCall.setEntityTypeForResourceName t.shortName t])
    ∧ ((patchDefaults lib globalObj typeDef).thrown = none →
        ∃ t, (addTypeToStore lib globalObj helper store typeDef).result = .ok t) := by
  refine ⟨?_, ?_, ?_, ?_, ?_⟩
  · intro h
    simp [addTypeNameAsResource, h]
  · intro h
    simp [addTypeNameAsResource, h]
  · intro hcomplex hc name t hmem
    unfold addTypeToStore at hmem
    simp only [] at hmem
    split at hmem
    · exact hmem
    · simp only [(patchDefaults_header lib globalObj typeDef).2.1, hc, if_true,
        addTypeNameAsResource, (inferValidators_header lib _).1, hcomplex] at hmem
      simpa using hmem
  · intro hentity he t hres
    unfold addTypeToStore at hres ⊢
    simp only [] at hres ⊢
    split at hres
    · simp at hres
    · rename_i hthrown
      simp only [hthrown]
      simp only [(patchDefaults_header lib globalObj typeDef).2.1, he,
        addTypeNameAsResource, (inferValidators_header lib _).1, hentity] at hres ⊢
      simp only [Except.ok.injEq] at hres
      subst hres
      simp [inferValidators, hentity]
  · intro hret
    unfold addTypeToStore
    simp only [hret]
    exact ⟨_, rfl⟩

/-- C8, evaluated with the stand-in library on an entity type definition and
on a complex type definition. -/
theorem addTypeNameAsResource_registers_witness :
    (∃ t, (addTypeToStore sampleBreeze plainGlobal (ctor (.str "Northwind")) [] personDef
        ).result = .ok t)
    ∧ (∃ t, (addTypeToStore sampleBreeze plainGlobal (ctor (.str "Northwind")) [] addressDef
        ).result = .ok t)
    ∧ (∀ name t, StoreCall.setEntityTypeForResourceName name t
          ∈ (addTypeToStore sampleBreeze plainGlobal (ctor (.str "Northwind")) []
              addressDef).store →
        StoreCall.setEntityTypeForResourceName name t ∈ ([] : Store))
    ∧ (∀ t, (addTypeToStore sampleBreeze plainGlobal (ctor (.str "Northwind")) [] personDef
          ).result = .ok t →
        (addTypeToStore sampleBreeze plainGlobal (ctor (.str "Northwind")) [] personDef).store
          = [] ++ [StoreCall.addEntityType (sampleBreeze.newEntityType
                (addTypeToStore sampleBreeze plainGlobal (ctor (.str "Northwind")) []
                  personDef).typeDef),
              StoreCall.setEntityTypeForResourceName t.shortName t]) :=
  ⟨⟨_, rfl⟩, ⟨_, rfl⟩,
    (addTypeNameAsResource_registers sampleBreeze plainGlobal (ctor (.str "Northwind")) []
      (sampleBreeze.newComplexType addressDef) addressDef).2.2.1 (fun _ => rfl) (by decide),
    (addTypeNameAsResource_registers sampleBreeze plainGlobal (ctor (.str "Northwind")) []
      (sampleBreeze.newEntityType personDef) personDef).2.2.2.1 (fun _ => rfl) (by decide)⟩

end MetadataHelper
